import Mathlib

/-!
Verification of the data-quality validation logic of the ISPU air-pollution
EDA repository.  The repository has two source files:

* `data_report_script.py` — a report script: per-column quality report,
  id validation, and a cross-column max / critical-pollutant validation.
* `script_eda.py` — reusable EDA helpers (duplicate check, unique-value
  inspector, multi-dataset schema comparison).

Numeric cell values are modelled as `ℚ`; a nullable cell is an `Option`.
-/

namespace ISPU

/-! ## Row model for the cross-column validation (data_report_script.py)

A row of the loaded table, restricted to the columns read by the
max / critical-pollutant validation.  The six pollutant columns have been
coerced to numeric (`pd.to_numeric(..., errors="coerce")`), so each holds
either a number or a null; the stored `max` column and the stored critical
label `parameter_pencemar_kritis` may also be null. -/
structure Row where
  pm_sepuluh : Option ℚ
  pm_duakomalima : Option ℚ
  sulfur_dioksida : Option ℚ
  karbon_monoksida : Option ℚ
  ozon : Option ℚ
  nitrogen_dioksida : Option ℚ
  max : Option ℚ
  parameter_pencemar_kritis : Option String

/-- The values of the six pollutant columns in the declaration order of
`polutan_map` in the source: pm_sepuluh, pm_duakomalima, sulfur_dioksida,
karbon_monoksida, ozon, nitrogen_dioksida. -/
def pollutantValues (r : Row) : List (Option ℚ) :=
  [r.pm_sepuluh, r.pm_duakomalima, r.sulfur_dioksida,
   r.karbon_monoksida, r.ozon, r.nitrogen_dioksida]

/-- The short ISPU labels of `polutan_map`, in declaration order. -/
def ispuLabels : List String :=
  ["PM10", "PM25", "SO2", "CO", "O3", "NO2"]

/-- `polutan_map.items()` evaluated on a row: the (value, label) pairs in
the fixed declaration order. -/
def rowPollutants (r : Row) : List (Option ℚ × String) :=
  (pollutantValues r).zip ispuLabels

/-- The loop body of `check_critical`: walk the (value, label) pairs in
order; at the first pair whose value equals the stored max `m`, return
whether the stored critical label equals that label (a null value never
equals `m`, as NaN compares unequal to everything); if no pair matches,
return `false`. -/
def criticalScan (m : ℚ) (crit : Option String) :
    List (Option ℚ × String) → Bool
  | [] => false
  | (v, label) :: rest =>
    if v = some m then crit == some label else criticalScan m crit rest

/-- `check_critical(row)` from data_report_script.py: rows with a null
stored max pass; otherwise scan the pollutant columns in `polutan_map`
order. -/
def check_critical (r : Row) : Bool :=
  match r.max with
  | none => true
  | some m => criticalScan m r.parameter_pencemar_kritis (rowPollutants r)

/-- A row enters the `critical_mismatch` frame exactly when
`check_critical` returns false (`df[~df.apply(check_critical, axis=1)]`). -/
def criticalFlagged (r : Row) : Bool := ! check_critical r

/-- Modelled from the spec's words: the expected short label is the mapped
name of the first pollutant column, in the fixed mapping order, whose value
equals the stored max; `none` when no pollutant value equals the stored
max. -/
def expectedLabel (m : ℚ) : List (Option ℚ × String) → Option String
  | [] => none
  | (v, label) :: rest =>
    if v = some m then some label else expectedLabel m rest

/-- The row-max recomputation step of `DataFrame.max(axis=1)`: combine two
nullable values, ignoring nulls. -/
def optMax (a b : Option ℚ) : Option ℚ :=
  match a, b with
  | none, b => b
  | some x, none => some x
  | some x, some y => some (max x y)

/-- `df["_recalc_max"]`: the row-wise maximum of the six pollutant columns,
skipping nulls; all-null rows give null. -/
def recalc_max (r : Row) : Option ℚ :=
  (pollutantValues r).foldr optMax none

/-- The `max_mismatch` row filter of data_report_script.py:
`df["max"].notna() & df["_recalc_max"].notna() & (df["max"] != df["_recalc_max"])`. -/
def maxMismatch (r : Row) : Bool :=
  r.max.isSome && (recalc_max r).isSome && (r.max != recalc_max r)

/-! ### Lemmas for the critical-label scan -/

theorem criticalScan_eq_false_iff (m : ℚ) (crit : Option String)
    (ps : List (Option ℚ × String)) :
    criticalScan m crit ps = false ↔
      expectedLabel m ps = none ∨
        ∃ l, expectedLabel m ps = some l ∧ some l ≠ crit := by
  induction ps with
  | nil => simp [criticalScan, expectedLabel]
  | cons p rest ih =>
    obtain ⟨v, label⟩ := p
    by_cases hv : v = some m
    · simp only [criticalScan, expectedLabel, if_pos hv]
      constructor
      · intro h
        refine Or.inr ⟨label, rfl, fun hc => ?_⟩
        rw [← hc] at h
        simp at h
      · rintro (h | ⟨l, hl, hne⟩)
        · exact absurd h (by simp)
        · obtain rfl : label = l := by simpa using hl
          simp only [beq_eq_false_iff_ne]
          exact fun hc => hne hc.symm
    · simp only [criticalScan, expectedLabel, if_neg hv]
      exact ih

/-! ### Lemmas for the recomputed maximum -/

theorem optMax_none_left (b : Option ℚ) : optMax none b = b := by
  cases b <;> rfl

theorem optMax_some_none (x : ℚ) : optMax (some x) none = some x := rfl

theorem optMax_some_some (x y : ℚ) :
    optMax (some x) (some y) = some (max x y) := rfl

theorem foldr_optMax_eq_none_iff (l : List (Option ℚ)) :
    l.foldr optMax none = none ↔ l.filterMap id = [] := by
  induction l with
  | nil => simp
  | cons a l ih =>
    cases a with
    | none => simpa [optMax_none_left] using ih
    | some x =>
      simp only [List.foldr_cons, List.filterMap_cons_some, id]
      constructor
      · intro h
        cases hrest : l.foldr optMax none <;> rw [hrest] at h
        · exact absurd h (by simp [optMax_some_none])
        · exact absurd h (by simp [optMax_some_some])
      · intro h
        exact absurd h (by simp)

theorem foldr_optMax_eq_some (l : List (Option ℚ)) (v : ℚ)
    (h : l.foldr optMax none = some v) :
    v ∈ l.filterMap id ∧ ∀ x ∈ l.filterMap id, x ≤ v := by
  induction l generalizing v with
  | nil => simp at h
  | cons a l ih =>
    cases a with
    | none =>
      simp only [List.foldr_cons, optMax_none_left] at h
      simpa using ih v h
    | some x =>
      simp only [List.foldr_cons] at h
      cases hrest : l.foldr optMax none with
      | none =>
        rw [hrest] at h
        simp only [optMax_some_none, Option.some.injEq] at h
        subst h
        have hempty := (foldr_optMax_eq_none_iff l).mp hrest
        simp [hempty]
      | some w =>
        rw [hrest] at h
        simp only [optMax_some_some, Option.some.injEq] at h
        subst h
        obtain ⟨hmem, hle⟩ := ih w hrest
        constructor
        · rcases le_total x w with hxw | hwx
          · simp only [max_eq_right hxw]
            simp [hmem]
          · simp [max_eq_left hwx]
        · intro y hy
          simp at hy
          rcases hy with rfl | hy
          · exact le_max_left _ _
          · exact le_trans (hle y (List.mem_filterMap.mpr ⟨some y, hy, rfl⟩))
              (le_max_right _ _)

theorem foldr_optMax_isSome_of_mem (l : List (Option ℚ)) (x : ℚ)
    (hx : x ∈ l.filterMap id) : l.foldr optMax none ≠ none := by
  intro h
  rw [foldr_optMax_eq_none_iff] at h
  rw [h] at hx
  simp at hx

/-- C1: for every row with a non-null stored max, the row is flagged as a
critical-label mismatch exactly when the stored critical label differs from
the expected label — the mapped short name of the first pollutant column,
in the fixed `polutan_map` declaration order, whose value equals the stored
max — or when no pollutant column's value equals the stored max at all.
Ties are resolved by this first-match order, which is what `expectedLabel`
encodes. -/
theorem critical_label_validation (r : Row) (m : ℚ) (h : r.max = some m) :
    criticalFlagged r = true ↔
      expectedLabel m (rowPollutants r) = none ∨
        ∃ l, expectedLabel m (rowPollutants r) = some l ∧
          some l ≠ r.parameter_pencemar_kritis := by
  have hc : check_critical r
      = criticalScan m r.parameter_pencemar_kritis (rowPollutants r) := by
    unfold check_critical
    rw [h]
  unfold criticalFlagged
  rw [hc, Bool.not_eq_true']
  exact criticalScan_eq_false_iff m r.parameter_pencemar_kritis (rowPollutants r)

/-- Concrete row used to witness the critical-label theorem: the spec's own
tie example, with two pollutants sharing the stored max. -/
def tieRow : Row :=
  ⟨some 50, some 80, some 10, some 5, some 80, some 15, some 80, some "PM25"⟩

theorem critical_label_validation_witness :
    tieRow.max = some 80 ∧
      (criticalFlagged tieRow = true ↔
        expectedLabel 80 (rowPollutants tieRow) = none ∨
          ∃ l, expectedLabel 80 (rowPollutants tieRow) = some l ∧
            some l ≠ tieRow.parameter_pencemar_kritis) :=
  ⟨rfl, critical_label_validation tieRow 80 rfl⟩

/-- C3: a row is flagged as a max mismatch iff its stored max and the
recomputed row maximum are both present and unequal (exact inequality on
the values); rows where either is null are never flagged. -/
theorem max_mismatch_iff (r : Row) :
    maxMismatch r = true ↔
      ∃ a b, r.max = some a ∧ recalc_max r = some b ∧ a ≠ b := by
  unfold maxMismatch
  cases hm : r.max <;> cases hr : recalc_max r <;>
    simp [hm, hr, bne_iff_ne]

/-- C4: for every row, the recomputed maximum is null iff all six pollutant
values are null, and it equals `m` iff `m` is one of the non-null pollutant
values and is an upper bound of them — i.e. it is the maximum of the
non-null pollutant values, nulls treated as absent. -/
theorem recalc_max_correct (r : Row) :
    (recalc_max r = none ↔ ∀ v ∈ pollutantValues r, v = none) ∧
      ∀ m : ℚ, recalc_max r = some m ↔
        m ∈ (pollutantValues r).filterMap id ∧
          ∀ x ∈ (pollutantValues r).filterMap id, x ≤ m := by
  constructor
  · rw [recalc_max, foldr_optMax_eq_none_iff, List.filterMap_eq_nil_iff]
    simp
  · intro m
    constructor
    · exact foldr_optMax_eq_some _ m
    · rintro ⟨hmem, hub⟩
      cases hw : (pollutantValues r).foldr optMax none with
      | none => exact absurd hw (foldr_optMax_isSome_of_mem _ m hmem)
      | some w =>
        obtain ⟨hwmem, hwub⟩ := foldr_optMax_eq_some _ w hw
        have : m = w := le_antisymm (hwub m hmem) (hub w hwmem)
        rw [recalc_max, hw, this]

/-! ## Identifier validation (data_report_script.py)

`Series.duplicated()` with the default `keep="first"` marks every
occurrence of a value that already appeared earlier in the series;
`duplicated(keep=False)` marks every occurrence of a value that appears
more than once in the series. -/

/-- Marks produced by `df["id"].duplicated()` (pandas default keep-first):
an element is marked iff an equal value occurred earlier; `seen` holds the
values already passed. -/
def dupMarks {α : Type} [DecidableEq α] (seen : List α) : List α → List Bool
  | [] => []
  | a :: l => decide (a ∈ seen) :: dupMarks (a :: seen) l

/-- `duplicate_ids = df["id"].duplicated().sum()`. -/
def duplicate_ids {α : Type} [DecidableEq α] (ids : List α) : ℕ :=
  (dupMarks [] ids).count true

/-- `df[df["id"].duplicated(keep=False)]["id"].head()`: the sample of
duplicated ids surfaced when duplicates exist — every occurrence of a
value appearing more than once, first five shown. -/
def sample_duplicated_ids {α : Type} [DecidableEq α] (ids : List α) : List α :=
  (ids.filter (fun a => decide (1 < ids.count a))).take 5

/-- C2 counterexample: on ids [1,2,2,3] the reported duplicate count is
not 2 — the count uses the pandas default keep-first marking, which marks
only the second occurrence of the repeated id. -/
theorem duplicate_count_not_inclusive :
    ¬ duplicate_ids ([1, 2, 2, 3] : List ℤ) = 2 := by decide

/-- C2 amended: on ids [1,2,2,3] the identifier validator reports a
duplicate count of 1 (only occurrences after the first of each repeated
value are counted, pandas default keep-first), while the sample of
duplicated ids it surfaces uses inclusive keep=False semantics and shows
both occurrences of the repeated id. -/
theorem duplicate_count_keep_first :
    duplicate_ids ([1, 2, 2, 3] : List ℤ) = 1 ∧
      sample_duplicated_ids ([1, 2, 2, 3] : List ℤ) = [2, 2] := by decide

/-! ## Duplicate check helper (script_eda.py) -/

/-- A row of a generic EDA table: an association list from column name to a
nullable cell value. -/
abbrev EdaRow (V : Type) := List (String × Option V)

/-- The cell of a row under a given column name; null when the column is
absent. -/
def cellOf {V : Type} (r : EdaRow V) (c : String) : Option V :=
  match r.find? (fun p => p.1 == c) with
  | some p => p.2
  | none => none

/-- `df[subset]` on one row: the projection of a row onto the key
columns. -/
def projKey {V : Type} (subset : List String) (r : EdaRow V) : List (Option V) :=
  subset.map (cellOf r)

/-- Outcome of `cek_duplikat`: the check was skipped (no unique key given),
or no duplicates were found, or the duplicated rows were found together
with the number of distinct keys among them. -/
inductive DupResult (V : Type) where
  | skipped : DupResult V
  | noDuplicates : DupResult V
  | found : List (EdaRow V) → ℕ → DupResult V
  deriving DecidableEq

/-- First-occurrence deduplication, the semantics of pandas `unique` and
`drop_duplicates`: keeps the first occurrence of each value; `seen` holds
the values already kept. -/
def uniqueFirstAux {α : Type} [DecidableEq α] (seen : List α) : List α → List α
  | [] => []
  | a :: l =>
    if a ∈ seen then uniqueFirstAux seen l
    else a :: uniqueFirstAux (a :: seen) l

/-- `cek_duplikat(df, unique)` from script_eda.py: with `unique=None` it
prints a skip notice and returns immediately; otherwise it normalises the
key to a list of columns, selects the rows whose key occurs more than once
(`df.duplicated(subset=subset, keep=False)`), and reports them together
with the number of distinct keys (`dup[subset].drop_duplicates()`). -/
def cek_duplikat {V : Type} [DecidableEq V] (df : List (EdaRow V))
    (unique : Option (String ⊕ List String)) : DupResult V :=
  match unique with
  | none => DupResult.skipped
  | some u =>
    let subset := match u with
      | Sum.inl s => [s]
      | Sum.inr l => l
    let keys := df.map (projKey subset)
    let dup := df.filter (fun r => decide (1 < keys.count (projKey subset r)))
    if dup.isEmpty then DupResult.noDuplicates
    else DupResult.found dup (uniqueFirstAux [] (dup.map (projKey subset))).length

/-! ## Multi-dataset schema comparison (script_eda.py) -/

/-- One entry of the schema dictionary built by `extract_column_schema`. -/
structure SchemaInfo where
  columns : List String
  n_columns : ℕ
  deriving DecidableEq

/-- `extract_column_schema(dfs)`: maps each dataset name to its column list
and column count.  A dataframe is represented by its column list, which is
all this function reads. -/
def extract_column_schema (dfs : List (String × List String)) :
    List (String × SchemaInfo) :=
  dfs.map (fun p => (p.1, ⟨p.2, p.2.length⟩))

/-- The duplicate-column list computed per dataset by
`find_internal_duplicate_columns`:
`[c for c in set(cols) if cols.count(c) > 1]`. -/
def dupOf (cols : List String) : List String :=
  (uniqueFirstAux [] cols).filter (fun c => decide (1 < cols.count c))

/-- `find_internal_duplicate_columns(schema_dict)`: for each dataset, the
column names occurring more than once in its own column list; datasets
whose duplicate list is empty are left out of the result. -/
def find_internal_duplicate_columns
    (schema_dict : List (String × SchemaInfo)) : List (String × List String) :=
  schema_dict.filterMap (fun p =>
    if (dupOf p.2.columns).isEmpty then none
    else some (p.1, dupOf p.2.columns))

theorem mem_uniqueFirstAux {α : Type} [DecidableEq α] (l : List α) :
    ∀ (seen : List α) (a : α),
      a ∈ uniqueFirstAux seen l ↔ a ∈ l ∧ a ∉ seen := by
  induction l with
  | nil => intro seen a; simp [uniqueFirstAux]
  | cons b l ih =>
    intro seen a
    by_cases hb : b ∈ seen
    · rw [uniqueFirstAux, if_pos hb, ih]
      constructor
      · rintro ⟨h, hn⟩
        exact ⟨List.mem_cons_of_mem _ h, hn⟩
      · rintro ⟨h, hn⟩
        rcases List.mem_cons.mp h with rfl | h
        · exact absurd hb hn
        · exact ⟨h, hn⟩
    · rw [uniqueFirstAux, if_neg hb]
      simp only [List.mem_cons, ih]
      constructor
      · rintro (rfl | ⟨h, hn⟩)
        · exact ⟨Or.inl rfl, hb⟩
        · exact ⟨Or.inr h, fun hs => hn (Or.inr hs)⟩
      · rintro ⟨h | h, hs⟩
        · exact Or.inl h
        · by_cases hab : a = b
          · exact Or.inl hab
          · refine Or.inr ⟨h, fun hc => ?_⟩
            rcases hc with hab' | hs'
            · exact hab hab'
            · exact hs hs'

theorem mem_dupOf (cols : List String) (c : String) :
    c ∈ dupOf cols ↔ c ∈ cols ∧ 1 < cols.count c := by
  rw [dupOf, List.mem_filter]
  simp [mem_uniqueFirstAux]

theorem nodup_keys_unique {α β : Type} (l : List (α × β))
    (h : (l.map Prod.fst).Nodup) (a : α) (b b' : β)
    (h1 : (a, b) ∈ l) (h2 : (a, b') ∈ l) : b = b' := by
  induction l with
  | nil => simp at h1
  | cons p l ih =>
    simp only [List.map_cons, List.nodup_cons] at h
    rcases List.mem_cons.mp h1 with rfl | h1'
    · rcases List.mem_cons.mp h2 with heq | h2'
      · injection heq with h₁ h₂
        exact h₂.symm
      · exact absurd (List.mem_map_of_mem Prod.fst h2') h.1
    · rcases List.mem_cons.mp h2 with heq | h2'
      · obtain rfl := heq.symm
        exact absurd (List.mem_map_of_mem Prod.fst h1') h.1
      · exact ih h.2 h1' h2'

theorem mem_find_internal_iff (sd : List (String × SchemaInfo))
    (n : String) (d : List String) :
    (n, d) ∈ find_internal_duplicate_columns sd ↔
      ∃ info, (n, info) ∈ sd ∧ (dupOf info.columns).isEmpty = false ∧
        d = dupOf info.columns := by
  rw [find_internal_duplicate_columns, List.mem_filterMap]
  constructor
  · rintro ⟨⟨n', info⟩, hmem, hf⟩
    by_cases he : (dupOf info.columns).isEmpty
    · rw [if_pos he] at hf
      exact absurd hf (by simp)
    · rw [if_neg he] at hf
      obtain ⟨rfl, rfl⟩ : n' = n ∧ dupOf info.columns = d := by
        simpa using hf
      exact ⟨info, hmem, Bool.not_eq_true _ ▸ by simpa using he, rfl⟩
  · rintro ⟨info, hmem, he, rfl⟩
    exact ⟨(n, info), hmem, by rw [if_neg (by simp [he])]⟩

/-- C8: over any family of datasets with distinct names, a dataset name
appears in `find_internal_duplicate_columns (extract_column_schema dfs)`
iff its own column list contains some name more than once, and the list
associated to it holds exactly the column names occurring more than once in
that dataset's column list. -/
theorem find_internal_duplicate_columns_correct
    (dfs : List (String × List String))
    (h : (dfs.map Prod.fst).Nodup)
    (name : String) (cols : List String)
    (hmem : (name, cols) ∈ dfs) :
    ((∃ d, (name, d) ∈
        find_internal_duplicate_columns (extract_column_schema dfs)) ↔
      ∃ c ∈ cols, 1 < cols.count c) ∧
    ∀ d, (name, d) ∈
        find_internal_duplicate_columns (extract_column_schema dfs) →
      ∀ c, c ∈ d ↔ c ∈ cols ∧ 1 < cols.count c := by
  have hkeys : ((extract_column_schema dfs).map Prod.fst).Nodup := by
    rw [extract_column_schema, List.map_map]
    exact h
  have hinfo : (name, (⟨cols, cols.length⟩ : SchemaInfo)) ∈
      extract_column_schema dfs :=
    List.mem_map_of_mem _ hmem
  have huniq : ∀ info, (name, info) ∈ extract_column_schema dfs →
      info = ⟨cols, cols.length⟩ := fun info hi =>
    nodup_keys_unique _ hkeys name info _ hi hinfo
  constructor
  · constructor
    · rintro ⟨d, hd⟩
      obtain ⟨info, hi, hne, rfl⟩ := (mem_find_internal_iff _ _ _).mp hd
      obtain rfl := huniq info hi
      rw [List.isEmpty_eq_false] at hne
      obtain ⟨c, hc⟩ := List.exists_mem_of_ne_nil _ hne
      obtain ⟨hcc, hcount⟩ := (mem_dupOf _ _).mp hc
      exact ⟨c, hcc, hcount⟩
    · rintro ⟨c, hcc, hcount⟩
      refine ⟨dupOf cols, (mem_find_internal_iff _ _ _).mpr
        ⟨⟨cols, cols.length⟩, hinfo, ?_, rfl⟩⟩
      rw [List.isEmpty_eq_false]
      intro hnil
      have : c ∈ dupOf cols := (mem_dupOf _ _).mpr ⟨hcc, hcount⟩
      rw [hnil] at this
      simp at this
  · intro d hd c
    obtain ⟨info, hi, _, rfl⟩ := (mem_find_internal_iff _ _ _).mp hd
    obtain rfl := huniq info hi
    exact mem_dupOf _ _

/-- Concrete family for the C8 witness: dataset "a" with a repeated column
name, dataset "b" without. -/
def dfsExample : List (String × List String) :=
  [("a", ["x", "y", "x"]), ("b", ["x", "y"])]

theorem find_internal_duplicate_columns_witness :
    ((∃ d, ("a", d) ∈
        find_internal_duplicate_columns (extract_column_schema dfsExample)) ↔
      ∃ c ∈ ["x", "y", "x"], 1 < (["x", "y", "x"] : List String).count c) ∧
    ∀ d, ("a", d) ∈
        find_internal_duplicate_columns (extract_column_schema dfsExample) →
      ∀ c, c ∈ d ↔ c ∈ ["x", "y", "x"] ∧
        1 < (["x", "y", "x"] : List String).count c :=
  find_internal_duplicate_columns_correct dfsExample (by decide)
    "a" ["x", "y", "x"] (by decide)

/-- C10: called with no unique-key argument, `cek_duplikat` returns the
skipped result for every table, and its result does not depend on the
table at all — no duplicate detection happens and the table is never
inspected. -/
theorem cek_duplikat_none_skips {V : Type} [DecidableEq V]
    (df df' : List (EdaRow V)) :
    cek_duplikat df none = DupResult.skipped ∧
      cek_duplikat df none = cek_duplikat df' none :=
  ⟨rfl, rfl⟩

/-! ## Column quality reporter (data_report_script.py)

The per-column report loop computes, for every column, the null count, the
null percentage `round(null_count / total * 100, 2)`, the distinct
non-null count, and up to five distinct stringified sample values.  The
division is modelled as fallible: a zero-row table makes
`null_count / total` a division by zero, rendered here as a null result,
since the loop has no branch guarding `total == 0`. -/

/-- Python's builtin `round` on a rational: round half to even. -/
def roundHalfEven (q : ℚ) : ℤ :=
  if Int.fract q < 1/2 then ⌊q⌋
  else if 1/2 < Int.fract q then ⌊q⌋ + 1
  else if ⌊q⌋ % 2 = 0 then ⌊q⌋ else ⌊q⌋ + 1

/-- `round(q, 2)`: round to two decimal places. -/
def pyRound2 (q : ℚ) : ℚ := (roundHalfEven (q * 100) : ℚ) / 100

theorem roundHalfEven_close (q : ℚ) : |(roundHalfEven q : ℚ) - q| ≤ 1 / 2 := by
  have h0 : (0 : ℚ) ≤ Int.fract q := Int.fract_nonneg q
  have h1 : Int.fract q < 1 := Int.fract_lt_one q
  have hq : q = (⌊q⌋ : ℚ) + Int.fract q := by
    rw [← Int.self_sub_floor q]
    ring
  rw [roundHalfEven]
  split_ifs with hlt hgt hev
  · rw [abs_le]
    constructor <;> linarith
  · rw [abs_le]
    constructor <;> push_cast <;> linarith
  · have hhalf : Int.fract q = 1 / 2 :=
      le_antisymm (not_lt.mp hgt) (not_lt.mp hlt)
    rw [abs_le]
    constructor <;> linarith
  · have hhalf : Int.fract q = 1 / 2 :=
      le_antisymm (not_lt.mp hgt) (not_lt.mp hlt)
    rw [abs_le]
    constructor <;> push_cast <;> linarith

/-- One line of the per-column data quality report (the dict appended to
`report`; the pandas dtype string is display-only and not modelled). -/
structure ColReport where
  column : String
  null_count : ℕ
  null_pct : Option ℚ
  unique_values : ℕ
  sample_values : String
  deriving DecidableEq

/-- The body of the report loop for a single column: `total = len(df)`,
`null_count = df[col].isna().sum()`, `unique_count = df[col].nunique(dropna=True)`,
`sample_values = df[col].dropna().astype(str).unique()[:5]`, and
`null_pct = round(null_count / total * 100, 2)` — null when `total = 0`,
the unguarded division by zero. -/
def colQuality {V : Type} [DecidableEq V] (toStr : V → String) (total : ℕ)
    (name : String) (vals : List (Option V)) : ColReport :=
  { column := name
    null_count := vals.count none
    null_pct :=
      if total = 0 then none
      else some (pyRound2 ((vals.count none : ℚ) / (total : ℚ) * 100))
    unique_values := (uniqueFirstAux [] (vals.filterMap id)).length
    sample_values :=
      String.intercalate ", "
        ((uniqueFirstAux [] ((vals.filterMap id).map toStr)).take 5) }

/-- The loaded table as seen by the report script: a row count
(`len(df)`) and the named columns, each holding one nullable cell per
row. -/
structure Frame (V : Type) where
  nrows : ℕ
  cols : List (String × List (Option V))

/-- The full per-column report: one `ColReport` per column of the table,
in column order. -/
def report {V : Type} [DecidableEq V] (toStr : V → String) (f : Frame V) :
    List ColReport :=
  f.cols.map (fun p => colQuality toStr f.nrows p.1 p.2)

/-- C6: an entry of the per-column report has a null (division-by-zero)
null percentage iff the table has zero rows: the computation is unguarded
— the loop has no `total == 0` branch, so the fallible division is
modelled by the null result — and zero rows is the only input on which it
fails. -/
theorem report_null_pct_none_iff {V : Type} [DecidableEq V]
    (toStr : V → String) (f : Frame V) (e : ColReport)
    (h : e ∈ report toStr f) :
    e.null_pct = none ↔ f.nrows = 0 := by
  rw [report, List.mem_map] at h
  obtain ⟨p, hp, rfl⟩ := h
  unfold colQuality
  by_cases ht : f.nrows = 0 <;> simp [ht]

/-- A zero-row table with a single `id` column, used to witness the C6
theorem. -/
def emptyFrame : Frame String := ⟨0, [("id", [])]⟩

theorem report_null_pct_none_witness :
    (colQuality (fun s => s) 0 "id" ([] : List (Option String))
        ∈ report (fun s => s) emptyFrame) ∧
      ((colQuality (fun s => s) 0 "id" ([] : List (Option String))).null_pct
          = none ↔ emptyFrame.nrows = 0) := by
  have hm : colQuality (fun s => s) 0 "id" ([] : List (Option String))
      ∈ report (fun s => s) emptyFrame := by decide
  exact ⟨hm, report_null_pct_none_iff (fun s => s) emptyFrame _ hm⟩

/-- C7: on a table with at least one row, every column's null percentage
is exactly `null_count / row_count * 100` rounded to two decimal places —
in particular the rounded value is an integer number of hundredths — and
the report is a pure function of the table, so re-running it on the same
input yields the identical report (no hidden random state in the
embedding of the loop). -/
theorem report_null_pct_formula {V : Type} [DecidableEq V]
    (toStr : V → String) (f : Frame V) (name : String)
    (vals : List (Option V)) (_hmem : (name, vals) ∈ f.cols)
    (h : f.nrows ≠ 0) :
    (colQuality toStr f.nrows name vals).null_pct
        = some (pyRound2 ((vals.count none : ℚ) / (f.nrows : ℚ) * 100)) ∧
      (∃ k : ℤ, pyRound2 ((vals.count none : ℚ) / (f.nrows : ℚ) * 100)
          = (k : ℚ) / 100) ∧
      report toStr f = report toStr f := by
  refine ⟨?_, ⟨roundHalfEven (((vals.count none : ℚ) / (f.nrows : ℚ) * 100) * 100), rfl⟩, rfl⟩
  unfold colQuality
  simp [h]

/-- A two-row table with one null in its `id` column, used to witness the
C7 theorem. -/
def smallFrame : Frame String := ⟨2, [("id", [some "1", none])]⟩

theorem report_null_pct_formula_witness :
    (colQuality (fun s => s) smallFrame.nrows "id" [some "1", none]).null_pct
        = some (pyRound2 ((([some "1", none] : List (Option String)).count none : ℚ)
            / (smallFrame.nrows : ℚ) * 100)) ∧
      (∃ k : ℤ, pyRound2 ((([some "1", none] : List (Option String)).count none : ℚ)
            / (smallFrame.nrows : ℚ) * 100) = (k : ℚ) / 100) ∧
      report (fun s => s) smallFrame = report (fun s => s) smallFrame :=
  report_null_pct_formula (fun s => s) smallFrame "id" [some "1", none]
    (by simp [smallFrame]) (by simp [smallFrame])

/-! ## Unique-value inspector (script_eda.py) -/

/-- Normalisation of the `exception` argument of `cek_value_data_column`:
`None` means no excepted columns, a single name means that one column, and
a collection of names is kept as the set to skip. -/
def excList (exception : Option (String ⊕ List String)) : List String :=
  match exception with
  | none => []
  | some (Sum.inl s) => [s]
  | some (Sum.inr l) => l

/-- The unique-value list computed per column: distinct non-null values in
first-occurrence order (`df[col].dropna().unique().tolist()`), truncated
to `max_unique` when given (`uniques[:max_unique]`). -/
def truncUniques {V : Type} [DecidableEq V] (max_unique : Option ℕ)
    (vals : List (Option V)) : List V :=
  match max_unique with
  | none => uniqueFirstAux [] (vals.filterMap id)
  | some k => (uniqueFirstAux [] (vals.filterMap id)).take k

/-- The `data` dict built by `cek_value_data_column` before padding: each
non-excepted column mapped to its (possibly truncated) unique-value
list. -/
def cvData {V : Type} [DecidableEq V] (df : List (String × List (Option V)))
    (exception : Option (String ⊕ List String)) (max_unique : Option ℕ) :
    List (String × List V) :=
  (df.filter (fun p => decide (p.1 ∉ excList exception))).map
    (fun p => (p.1, truncUniques max_unique p.2))

/-- The running maximum list length tracked by the loop
(`max_len = max(max_len, len(uniques))`, starting from 0). -/
def cvMaxLen {V : Type} [DecidableEq V] (df : List (String × List (Option V)))
    (exception : Option (String ⊕ List String)) (max_unique : Option ℕ) : ℕ :=
  (cvData df exception max_unique).foldl (fun m p => Nat.max m p.2.length) 0

/-- `cek_value_data_column(df, exception, max_unique)`: the wide-format
unique-value table — every non-excepted column's unique-value list padded
with nulls to the common maximum length. -/
def cek_value_data_column {V : Type} [DecidableEq V]
    (df : List (String × List (Option V)))
    (exception : Option (String ⊕ List String)) (max_unique : Option ℕ) :
    List (String × List (Option V)) :=
  (cvData df exception max_unique).map
    (fun p => (p.1, p.2.map some ++
      List.replicate (cvMaxLen df exception max_unique - p.2.length) none))

/-- From the claim's words: the input's columns minus the excepted ones. -/
def includedColumns {V : Type} (df : List (String × List (Option V)))
    (exception : Option (String ⊕ List String)) :
    List (String × List (Option V)) :=
  df.filter (fun p => decide (p.1 ∉ excList exception))

/-- From the claim's words: the number of distinct non-null values of a
column, capped at `max_unique` when given. -/
def cappedDistinct {V : Type} [DecidableEq V] (max_unique : Option ℕ)
    (vals : List (Option V)) : ℕ :=
  match max_unique with
  | none => (vals.filterMap id).toFinset.card
  | some k => min k (vals.filterMap id).toFinset.card

/-- From the claim's words: the common column length of the result — the
maximum over included columns of the capped distinct count. -/
def commonLength {V : Type} [DecidableEq V]
    (df : List (String × List (Option V)))
    (exception : Option (String ⊕ List String)) (max_unique : Option ℕ) : ℕ :=
  (includedColumns df exception).foldl
    (fun m p => Nat.max m (cappedDistinct max_unique p.2)) 0

theorem nodup_uniqueFirstAux {α : Type} [DecidableEq α] (l : List α) :
    ∀ seen, (uniqueFirstAux seen l).Nodup := by
  induction l with
  | nil => intro seen; simp [uniqueFirstAux]
  | cons b l ih =>
    intro seen
    by_cases hb : b ∈ seen
    · rw [uniqueFirstAux, if_pos hb]
      exact ih seen
    · rw [uniqueFirstAux, if_neg hb]
      refine List.nodup_cons.mpr ⟨fun hmem => ?_, ih (b :: seen)⟩
      exact ((mem_uniqueFirstAux l (b :: seen) b).mp hmem).2
        (List.mem_cons_self b seen)

theorem toFinset_uniqueFirstAux {α : Type} [DecidableEq α] (l : List α) :
    (uniqueFirstAux [] l).toFinset = l.toFinset := by
  ext a
  simp [List.mem_toFinset, mem_uniqueFirstAux]

theorem length_uniqueFirstAux {α : Type} [DecidableEq α] (l : List α) :
    (uniqueFirstAux [] l).length = l.toFinset.card := by
  rw [← toFinset_uniqueFirstAux,
    List.toFinset_card_of_nodup (nodup_uniqueFirstAux l [])]

theorem le_foldl_max {α : Type} (f : α → ℕ) (l : List α) :
    ∀ init, init ≤ l.foldl (fun m a => Nat.max m (f a)) init := by
  induction l with
  | nil => intro init; exact le_refl _
  | cons a l ih =>
    intro init
    exact le_trans (Nat.le_max_left init (f a)) (ih _)

theorem mem_le_foldl_max {α : Type} (f : α → ℕ) (l : List α) (x : α)
    (hx : x ∈ l) :
    ∀ init, f x ≤ l.foldl (fun m a => Nat.max m (f a)) init := by
  induction l with
  | nil => simp at hx
  | cons a l ih =>
    intro init
    rcases List.mem_cons.mp hx with rfl | hx'
    · exact le_trans (Nat.le_max_right init (f x)) (le_foldl_max f l _)
    · exact ih hx' _

/-- C9: on a table with distinct column names, the unique-value inspector
returns exactly the input's columns minus the excepted ones, and every
column of the result has the same length — the maximum over included
columns of the number of distinct non-null values, capped at `max_unique`
when given. -/
theorem cek_value_data_column_uniform {V : Type} [DecidableEq V]
    (df : List (String × List (Option V)))
    (exception : Option (String ⊕ List String)) (max_unique : Option ℕ)
    (_hnodup : (df.map Prod.fst).Nodup) :
    ((cek_value_data_column df exception max_unique).map Prod.fst
        = (includedColumns df exception).map Prod.fst) ∧
      ∀ p ∈ cek_value_data_column df exception max_unique,
        p.2.length = commonLength df exception max_unique := by
  have hlen : ∀ q : String × List (Option V),
      (truncUniques max_unique q.2).length = cappedDistinct max_unique q.2 := by
    intro q
    cases max_unique with
    | none => simp [truncUniques, cappedDistinct, length_uniqueFirstAux]
    | some k =>
      simp [truncUniques, cappedDistinct, List.length_take,
        length_uniqueFirstAux]
  have hmaxlen : cvMaxLen df exception max_unique
      = commonLength df exception max_unique := by
    rw [cvMaxLen, cvData, List.foldl_map, commonLength, includedColumns]
    congr 1
    funext m q
    rw [hlen q]
  constructor
  · rw [cek_value_data_column, cvData, includedColumns, List.map_map,
      List.map_map]
    congr 1
  · intro p hp
    rw [cek_value_data_column] at hp
    obtain ⟨q, hq, rfl⟩ := List.mem_map.mp hp
    have hle : q.2.length ≤ cvMaxLen df exception max_unique :=
      mem_le_foldl_max (fun p => p.2.length) _ q hq 0
    simp only [List.length_append, List.length_map, List.length_replicate]
    rw [Nat.add_sub_cancel' hle, hmaxlen]

/-- Concrete table for the C9 witness: column "a" with a repeated value,
column "b" excepted, column "c" all null. -/
def dfUnique : List (String × List (Option ℤ)) :=
  [("a", [some 1, some 1, some 2]), ("b", [some 9]), ("c", [none])]

theorem cek_value_data_column_uniform_witness :
    ((cek_value_data_column dfUnique (some (Sum.inl "b")) none).map Prod.fst
        = (includedColumns dfUnique (some (Sum.inl "b"))).map Prod.fst) ∧
      ∀ p ∈ cek_value_data_column dfUnique (some (Sum.inl "b")) none,
        p.2.length = commonLength dfUnique (some (Sum.inl "b")) none :=
  cek_value_data_column_uniform dfUnique (some (Sum.inl "b")) none (by decide)

/-! ## Frame behaviour of the validation run (data_report_script.py)

The MAX & critical-pollutant validation section mutates the loaded table
three times: the in-place numeric coercion loop over the six pollutant
columns, the `_recalc_max` helper column assignment, and the final
`df.drop(columns=["_recalc_max"])`.  The mismatch filters build new frames
and leave `df` untouched.  A raw cell of the loaded CSV is null, a value
`pd.to_numeric` parses to a number (already-numeric cells and numeric
strings), or a string it cannot parse. -/

/-- A raw cell of the loaded table. -/
abbrev RawCell := Option (ℚ ⊕ String)

/-- A loaded dataframe: named columns in order, each a list of raw cells
(one per row). -/
abbrev DataF := List (String × List RawCell)

/-- `pd.to_numeric(cell, errors="coerce")`: parseable cells keep their
numeric value, unparseable strings become null, null stays null. -/
def toNumericCell (c : RawCell) : RawCell :=
  match c with
  | some (Sum.inl q) => some (Sum.inl q)
  | some (Sum.inr _) => none
  | none => none

/-- `df[name]`: the cells of the first column with the given name. -/
def getCol (df : DataF) (name : String) : List RawCell :=
  match df.find? (fun p => p.1 == name) with
  | some p => p.2
  | none => []

/-- `df[name] = vals`: replaces the column in place when present,
otherwise appends a new column at the end (pandas column assignment). -/
def setCol (df : DataF) (name : String) (vals : List RawCell) : DataF :=
  if df.any (fun p => p.1 == name) then
    df.map (fun p => if p.1 = name then (p.1, vals) else p)
  else df ++ [(name, vals)]

/-- The keys of `polutan_map`, in declaration order. -/
def polutanCols : List String :=
  ["pm_sepuluh", "pm_duakomalima", "sulfur_dioksida",
   "karbon_monoksida", "ozon", "nitrogen_dioksida"]

/-- The numeric reading of a coerced cell. -/
def cellNum (c : RawCell) : Option ℚ :=
  match c with
  | some (Sum.inl q) => some q
  | some (Sum.inr _) => none
  | none => none

/-- `len(df)`: the number of rows, read off the first column. -/
def rowCountD (df : DataF) : ℕ :=
  match df with
  | [] => 0
  | p :: _ => p.2.length

/-- `df[list(polutan_map.keys())].max(axis=1)`: the helper column of
row-wise maxima over the six pollutant columns, nulls skipped. -/
def recalcColumn (df : DataF) : List RawCell :=
  (List.range (rowCountD df)).map (fun i =>
    ((polutanCols.map (fun c => cellNum ((getCol df c).getD i none))).foldr
        optMax none).map Sum.inl)

/-- The in-place coercion loop:
`for col in polutan_map: df[col] = pd.to_numeric(df[col], errors="coerce")`. -/
def coerceStep (df : DataF) : DataF :=
  polutanCols.foldl
    (fun d c => setCol d c ((getCol d c).map toNumericCell)) df

/-- All dataframe mutations performed by the validation run, in order:
coercion loop, helper column assignment, helper column drop. -/
def runValidation (df : DataF) : DataF :=
  let d1 := coerceStep df
  let d2 := setCol d1 "_recalc_max" (recalcColumn d1)
  d2.filter (fun p => p.1 != "_recalc_max")

/-- A one-row table whose `pm_sepuluh` cell is an unparseable string, as
produced by loading a CSV with a malformed pollutant entry. -/
def dfRaw : DataF :=
  [("pm_sepuluh", [some (Sum.inr "abc")]),
   ("pm_duakomalima", [some (Sum.inl 5)]),
   ("sulfur_dioksida", [some (Sum.inl 1)]),
   ("karbon_monoksida", [some (Sum.inl 1)]),
   ("ozon", [some (Sum.inl 1)]),
   ("nitrogen_dioksida", [some (Sum.inl 1)]),
   ("max", [some (Sum.inl 5)]),
   ("parameter_pencemar_kritis", [some (Sum.inr "PM25")])]

/-- C5 counterexample: the run changes the values of the `pm_sepuluh`
column — the coercion loop turns its unparseable string into a null — so
the helper column is not the only modification made to the loaded
table. -/
theorem run_mutates_pollutant_column :
    getCol (runValidation dfRaw) "pm_sepuluh" ≠ getCol dfRaw "pm_sepuluh" := by
  decide

theorem getCol_eq_of_mem_nodup (df : DataF) (hn : (df.map Prod.fst).Nodup)
    (c : String) (v : List RawCell) (hv : (c, v) ∈ df) : getCol df c = v := by
  induction df with
  | nil => simp at hv
  | cons q df ih =>
    simp only [List.map_cons, List.nodup_cons] at hn
    by_cases hq : q.1 = c
    · have hfind : getCol (q :: df) c = q.2 := by
        rw [getCol, List.find?_cons_of_pos _ (by simp [hq])]
      rcases List.mem_cons.mp hv with rfl | hv'
      · exact hfind
      · exact absurd (hq ▸ List.mem_map_of_mem Prod.fst hv') hn.1
    · have hfind : getCol (q :: df) c = getCol df c := by
        rw [getCol, List.find?_cons_of_neg _ (by simp [hq]), getCol]
      rcases List.mem_cons.mp hv with rfl | hv'
      · exact absurd rfl hq
      · rw [hfind]
        exact ih hn.2 hv'

theorem setCol_of_mem (df : DataF) (hn : (df.map Prod.fst).Nodup)
    (c : String) (hc : c ∈ df.map Prod.fst) (f : RawCell → RawCell) :
    setCol df c ((getCol df c).map f)
      = df.map (fun p => if p.1 = c then (p.1, p.2.map f) else p) := by
  rw [setCol, if_pos]
  · apply List.map_congr_left
    intro p hp
    by_cases hpc : p.1 = c
    · rw [if_pos hpc, if_pos hpc]
      have : getCol df c = p.2 :=
        getCol_eq_of_mem_nodup df hn c p.2 (by rw [← hpc]; exact hp)
      rw [this]
    · rw [if_neg hpc, if_neg hpc]
  · rw [List.any_eq_true]
    obtain ⟨p, hp, hpc⟩ := List.mem_map.mp hc
    exact ⟨p, hp, by simp [hpc]⟩

theorem coerce_foldl_eq_map (L : List String) :
    ∀ (df : DataF), L.Nodup → (df.map Prod.fst).Nodup →
      (∀ c ∈ L, c ∈ df.map Prod.fst) →
      L.foldl (fun d c => setCol d c ((getCol d c).map toNumericCell)) df
        = df.map (fun p =>
            if p.1 ∈ L then (p.1, p.2.map toNumericCell) else p) := by
  induction L with
  | nil =>
    intro df _ _ _
    simp
  | cons c L ih =>
    intro df hL hdf hall
    rw [List.foldl_cons,
      setCol_of_mem df hdf c (hall c (List.mem_cons_self c L)) toNumericCell]
    have hfst : (df.map (fun p => if p.1 = c then (p.1, p.2.map toNumericCell)
        else p)).map Prod.fst = df.map Prod.fst := by
      rw [List.map_map]
      apply List.map_congr_left
      intro p _
      by_cases hpc : p.1 = c <;> simp [hpc]
    rw [List.nodup_cons] at hL
    rw [ih _ hL.2 (hfst ▸ hdf) (fun c' hc' => hfst ▸ hall c'
      (List.mem_cons_of_mem c hc')), List.map_map]
    apply List.map_congr_left
    intro p _
    by_cases hpc : p.1 = c
    · have hnotL : p.1 ∉ L := hpc ▸ hL.1
      simp only [Function.comp_apply, if_pos hpc]
      rw [if_neg (by simpa using hnotL), if_pos (by simp [hpc])]
    · simp only [Function.comp_apply, if_neg hpc]
      by_cases hpL : p.1 ∈ L
      · rw [if_pos hpL, if_pos (List.mem_cons_of_mem c hpL)]
      · rw [if_neg hpL, if_neg (by simp [hpc, hpL])]

/-- C5 amended: provided the six pollutant columns are present, column
names are distinct, and no `_recalc_max` column pre-exists, the entire
run transforms the loaded table into the same table with the six pollutant
columns numerically coerced in place; the `_recalc_max` helper column is
added and dropped again, and every non-pollutant column is left
unchanged. -/
theorem runValidation_frame (df : DataF)
    (hnodup : (df.map Prod.fst).Nodup)
    (hall : ∀ c ∈ polutanCols, c ∈ df.map Prod.fst)
    (hno : "_recalc_max" ∉ df.map Prod.fst) :
    runValidation df
      = df.map (fun p =>
          if p.1 ∈ polutanCols then (p.1, p.2.map toNumericCell) else p) := by
  have hco : coerceStep df = df.map (fun p =>
      if p.1 ∈ polutanCols then (p.1, p.2.map toNumericCell) else p) :=
    coerce_foldl_eq_map polutanCols df (by decide) hnodup hall
  have hfst : (coerceStep df).map Prod.fst = df.map Prod.fst := by
    rw [hco, List.map_map]
    apply List.map_congr_left
    intro p _
    by_cases hpc : p.1 ∈ polutanCols <;> simp [hpc]
  have hno1 : ∀ p ∈ coerceStep df, p.1 ≠ "_recalc_max" := by
    intro p hp hc
    exact hno (hfst ▸ hc ▸ List.mem_map_of_mem Prod.fst hp)
  rw [runValidation]
  have hset : setCol (coerceStep df) "_recalc_max" (recalcColumn (coerceStep df))
      = coerceStep df ++ [("_recalc_max", recalcColumn (coerceStep df))] := by
    rw [setCol, if_neg]
    rw [Bool.not_eq_true, ← Bool.not_eq_true, Bool.not_eq_true]
    rw [List.any_eq_false]
    intro p hp
    simpa using hno1 p hp
  rw [hset, List.filter_append]
  have h1 : (coerceStep df).filter (fun p => p.1 != "_recalc_max")
      = coerceStep df := by
    rw [List.filter_eq_self]
    intro p hp
    simpa using hno1 p hp
  have h2 : ([("_recalc_max", recalcColumn (coerceStep df))] : DataF).filter
      (fun p => p.1 != "_recalc_max") = [] := by
    simp
  rw [h1, h2, List.append_nil, hco]

theorem runValidation_frame_witness :
    runValidation dfRaw
      = dfRaw.map (fun p =>
          if p.1 ∈ polutanCols then (p.1, p.2.map toNumericCell) else p) :=
  runValidation_frame dfRaw (by decide) (by decide) (by decide)

end ISPU
